import Mathlib

/-!
Shallow embedding of the `mrl-mono` indexer (`src/indexer/src/lib.rs`): the
scheduled ingestion pipeline, its watermark/cursor logic, event filtering,
token-registry reconciliation, the monotone price-series sweep, USD
normalization, and the batched persistence step, together with theorems
settling the specification claims.

Machine integers are modelled as `Nat` with explicit overflow checks where
the Rust arithmetic can overflow (`u128::pow` in `calculate_usd`); `f32`
values are modelled as exact rationals (`ℚ`); fallible Rust expressions
(`Result`, panicking `unwrap`) are modelled with `Except` / `Option`.
-/

namespace MrlMono

/-- Model of Rust `str::parse::<uN>` restricted to the plain decimal form:
a non-empty all-digit string parses to its value when it fits below `bound`
(the integer type's cardinality), otherwise parsing fails. -/
def parseDigits (s : String) : Option Nat :=
  if s.isEmpty then none
  else if s.toList.all (fun c => c.isDigit) then
    some (s.toList.foldl (fun n c => n * 10 + (c.toNat - 48)) 0)
  else none

/-- Bounded parse: `parse::<u32>` uses `bound = 2^32`, `parse::<u64>` uses
`bound = 2^64`. -/
def parseBounded (bound : Nat) (s : String) : Option Nat :=
  (parseDigits s).bind (fun n => if n < bound then some n else none)

def parseU32 : String → Option Nat := parseBounded (2 ^ 32)

def parseU64 : String → Option Nat := parseBounded (2 ^ 64)

/-- Model of Rust `str::contains` (substring containment) on strings. -/
def containsSub (s pat : String) : Bool :=
  (List.range (s.toList.length + 1)).any
    (fun i => List.isPrefixOf pat.toList (s.toList.drop i))

/-- `Token` row (`struct Token`, lib.rs:30): contract address is the primary
key of the `Token` table. -/
structure Token where
  contract_addr : String
  token_name : String
  token_sym : String
  decimals : Nat
deriving Repr, DecidableEq

/-- `impl Default for Token` (lib.rs:37): empty strings, 18 decimals. -/
def Token.defaultToken : Token :=
  { contract_addr := "", token_name := "", token_sym := "", decimals := 18 }

/-- `TransferForward` row (lib.rs:44): `usd` is an `f32` in the source,
modelled as an exact rational. -/
structure TransferForward where
  tx_hash : String
  token_addr : String
  token_count : Nat
  usd : ℚ
  block_num : Nat
  timestamp : String
  to_chain : Nat
deriving Repr, DecidableEq

/-- The fields of `ethers_etherscan::account::ERC20TokenTransferEvent` that
the pipeline consumes. `sender` models the `from` H160 address as a natural
number (`0` is `H160::default()`, the zero address); `block_number` is
`None` when the event carries no block number (defaulted to 0 downstream);
`time_stamp` and `token_decimal` are untrusted string fields. -/
structure ScanEvent where
  sender : Nat
  hash : String
  contract_address : String
  value : Nat
  block_number : Option Nat
  time_stamp : String
  token_name : String
  token_symbol : String
  token_decimal : String
deriving Repr, DecidableEq

/-- A price sample of the `twelve_data` module. `timestamp` is the sample's
integer-seconds timestamp (`u64`). `est` — Modelled from the spec: the module
`twelve_data` is not under `src/`; per the spec a sample is an OHLC-style
quad "from which a single representative estimate is derived", consumed only
through `TimeSeries::estimate()`, so the derived estimate is carried as a
field. -/
structure TimeSeries where
  timestamp : Nat
  est : ℚ
deriving Repr, DecidableEq

/-- `TimeSeries::estimate()` — see `TimeSeries.est`. -/
def TimeSeries.estimate (ts : TimeSeries) : ℚ := ts.est

/-- The hardcoded genesis block constant (lib.rs:164 and lib.rs:167). -/
def GENESIS_BLOCK : Nat := 4164120

/-- Step 1 of `scheduled` (lib.rs:159-168): the result of
`SELECT MAX(block_num) AS most_recent_block FROM TransfersForward` read with
`first::<u64>`: a query error or a NULL aggregate (empty table) falls back
to the genesis constant, otherwise the stored maximum is used. -/
def resumeBlock : Except Unit (Option Nat) → Nat
  | .error _ => GENESIS_BLOCK
  | .ok (some r) => r
  | .ok none => GENESIS_BLOCK

/-- The start of the fetch window passed to etherscan
(`TxListParams::new(block + 1, …)`, lib.rs:187). -/
def fetchFromBlock (wm : Except Unit (Option Nat)) : Nat :=
  resumeBlock wm + 1

/-- Model of the `MAX(block_num)` aggregate over the persisted
`TransfersForward` rows: `NULL` (`none`) on an empty table, otherwise the
maximum block number. -/
def maxBlockQuery (store : List TransferForward) : Option Nat :=
  (store.map (fun r => r.block_num)).maximum

/-- Step 3 of `scheduled` (lib.rs:200-217): the `TransferForward` built for a
retained event. `usd` starts at 0 (filled later), `to_chain` is the constant
placeholder 1000, a missing block number defaults to 0. The `format!`
renderings of the hash and contract address are modelled as the identity on
the stored strings. -/
def toTransferForward (e : ScanEvent) : TransferForward :=
  { tx_hash := e.hash
    token_addr := e.contract_address
    token_count := e.value
    usd := 0
    block_num := e.block_number.getD 0
    timestamp := e.time_stamp
    to_chain := 1000 }

/-- The `filter_map` of step 3 (lib.rs:202-216): only events whose `from`
address equals `H160::default()` (the zero address) are retained. -/
def filterTransfers (events : List ScanEvent) : List TransferForward :=
  events.filterMap
    (fun e => if e.sender = 0 then some (toTransferForward e) else none)

/-- Step 4 of `scheduled` (lib.rs:228-246): the `(address, Token)` pairs
collected into the `HashMap`, in event order. A failing `parse::<u32>` of
the decimal string defaults to 18. -/
def tokenPairs (events : List ScanEvent) : List (String × Token) :=
  events.filterMap
    (fun e =>
      if e.sender = 0 then
        some (e.contract_address,
          { contract_addr := e.contract_address
            token_name := e.token_name
            token_sym := e.token_symbol
            decimals := (parseU32 e.token_decimal).getD 18 })
      else none)

/-- `HashMap::get` on the collected pairs: `collect` into a `HashMap` is
last-write-wins per key, so lookup finds the last pair with the given
address. -/
def tokenLookup (pairs : List (String × Token)) (k : String) : Option Token :=
  (pairs.reverse.find? (fun p => p.1 == k)).map (fun p => p.2)

/-- The decimals used for a transfer in the match-and-normalize loop
(lib.rs:304): `token_hash.get(addr).unwrap_or(&Token::default()).decimals`. -/
def decimalsOf (pairs : List (String × Token)) (addr : String) : Nat :=
  ((tokenLookup pairs addr).getD Token.defaultToken).decimals

/-- `is_usd_stablecoin` (lib.rs:390-393): the looked-up symbol (defaulting
to the empty symbol) contains `"USDT"`, `"USDC"` or `"DAI"`. -/
def is_usd_stablecoin (token_hash : List (String × Token))
    (token_addr : String) : Bool :=
  let sym := ((tokenLookup token_hash token_addr).getD Token.defaultToken).token_sym
  containsSub sym "USDT" || containsSub sym "USDC" || containsSub sym "DAI"

/-- `u128::MAX`. -/
def U128_MAX : Nat := 2 ^ 128 - 1

/-- `10_u128.pow(e)` under overflow-checked semantics: `none` models the
overflow panic raised when the power does not fit in a `u128`. -/
def pow10_u128 (e : Nat) : Option Nat :=
  if 10 ^ e ≤ U128_MAX then some (10 ^ e) else none

/-- `calculate_usd` (lib.rs:395-403), with `f32` arithmetic modelled as
exact rational arithmetic and the `u128` power overflow-checked: the raw
amount is collapsed by truncating integer division before the conversion to
floating point. `none` models the overflow panic of `10_u128.pow`. -/
def calculate_usd (exchange_rate : ℚ) (token_count : Nat)
    (token_decimals : Nat) : Option ℚ :=
  if 6 ≤ token_decimals then
    (pow10_u128 (token_decimals - 6)).map
      (fun d => exchange_rate * ((token_count / d : Nat) : ℚ) / 10 ^ 6)
  else
    (pow10_u128 token_decimals).map
      (fun d => exchange_rate * ((token_count / d : Nat) : ℚ))

/-- The price-series sweep (lib.rs:319-337), index component: starting from
`twelve_index = i`, advance while the next sample is strictly closer to the
target than the current one (`u64::abs_diff` is `Nat.dist`); return the
index at which the loop breaks. When `i` is already past the end the index
is left unchanged (the loop then breaks with the last sample as its value,
see `sweepSample`). -/
def sweepIdx (data : List TimeSeries) (t : Nat) (i : Nat) : Nat :=
  if h : data.length ≤ i then i
  else
    let cur := data.get ⟨i, Nat.lt_of_not_le h⟩
    let nxt := data.getD (i + 1) cur
    if Nat.dist cur.timestamp t ≤ Nat.dist nxt.timestamp t then i
    else sweepIdx data t (i + 1)
termination_by data.length - i
decreasing_by simp_wf; omega

/-- The sample value the sweep loop breaks with: the current sample at the
stop index, or `last()` when the index is past the end of the series
(`none` models the `unwrap` panic of `twelve_data.last().unwrap()` on an
empty series). -/
def sweepSample (data : List TimeSeries) (t : Nat) (i : Nat) :
    Option TimeSeries :=
  let j := sweepIdx data t i
  if data.length ≤ j then data.getLast? else data[j]?

/-- One iteration of the match-and-normalize loop (lib.rs:303-340) on one
transfer, threading the shared `twelve_index`. A stablecoin transfer gets
`usd = calculate_usd(1.0, …)` and skips the sweep (`continue`); a
BTC-symbol token is skipped with `usd` left at 0; otherwise the sweep picks
the sample and its estimate is the exchange rate. The transfer timestamp is
`tx.timestamp.parse().unwrap_or(0)`. `none` models a panic (series `last()`
unwrap on an empty series, or `calculate_usd` overflow). -/
def matchStep (token_hash : List (String × Token)) (data : List TimeSeries)
    (idx : Nat) (tx : TransferForward) : Option (TransferForward × Nat) :=
  if is_usd_stablecoin token_hash tx.token_addr then
    (calculate_usd 1 tx.token_count (decimalsOf token_hash tx.token_addr)).map
      (fun u => ({ tx with usd := u }, idx))
  else if containsSub
      ((tokenLookup token_hash tx.token_addr).getD Token.defaultToken).token_sym
      "BTC" then
    some (tx, idx)
  else
    match sweepSample data ((parseU64 tx.timestamp).getD 0) idx with
    | none => none
    | some ts =>
      (calculate_usd ts.estimate tx.token_count
          (decimalsOf token_hash tx.token_addr)).map
        (fun u =>
          ({ tx with usd := u },
            sweepIdx data ((parseU64 tx.timestamp).getD 0) idx))

/-- The whole match-and-normalize loop (`for tx in &mut filtered_etherscan_data`,
lib.rs:303-340): processes the transfers in order, threading `twelve_index`,
and returns the updated transfers together with the final index. -/
def processTransfers (token_hash : List (String × Token))
    (data : List TimeSeries) :
    List TransferForward → Nat → Option (List TransferForward × Nat)
  | [], idx => some ([], idx)
  | tx :: rest, idx =>
    match matchStep token_hash data idx tx with
    | none => none
    | some (tx', idx') =>
      (processTransfers token_hash data rest idx').map
        (fun p => (tx' :: p.1, p.2))

/-- Errors of the price-feed stage. -/
inductive PriceError where
  | fetchFailure
  | noPriceData
deriving Repr, DecidableEq

/-- Modelled from the spec: `get_twelve_data` lives in the module
`twelve_data`, which is not under `src/`. Per the spec the price-feed
response is an ordered sequence of samples and "Empty response is an error"
(`NoPriceDataError` — "empty price series — fatal"); a network/auth failure
is a fetch error. -/
def get_twelve_data_model (raw : Except Unit (List TimeSeries)) :
    Except PriceError (List TimeSeries) :=
  match raw with
  | .error _ => .error .fetchFailure
  | .ok [] => .error .noPriceData
  | .ok l => .ok l

/-- How one invocation of `scheduled` ended. `panicked` marks a Rust panic
(a failing `unwrap` or overflow); the remaining constructors are the
`return` points of the function, in source order, with `finished` the fall
through to the end. -/
inductive ExitKind where
  | dbError
  | moonscanKeyError
  | clientError
  | fetchError
  | noTransactions
  | panicked
  | tokenInsertError
  | twelveKeyError
  | priceError (e : PriceError)
  | finished
deriving Repr, DecidableEq

/-- The oracle answers for one run of `scheduled`: every external
interaction the function awaits, in source order. `etherscanResult` is a
function of the requested start block. `tokenInsertResult` is
`db.prepare(token_statement).run()`: `.error` for `Err(e)` and `.ok b` for
`Ok(r)` with `r.success() = b`. `priceFeedRaw` is the raw feed response
consumed by `get_twelve_data_model`. -/
structure RunEnv where
  dbOk : Bool
  watermarkResult : Except Unit (Option Nat)
  moonscanKeyOk : Bool
  clientOk : Bool
  etherscanResult : Nat → Except Unit (List ScanEvent)
  tokenInsertResult : Except Unit Bool
  twelveKeyOk : Bool
  priceFeedRaw : Except Unit (List TimeSeries)

/-- Observable outcome of one run of `scheduled`: how it ended, which store
writes were attempted (the token upsert and the transfer batch insert), and
the transfer rows contained in the batch-insert statements. -/
structure RunResult where
  exit : ExitKind
  tokenInsertAttempted : Bool
  transferBatchAttempted : Bool
  insertedTransfers : List TransferForward
deriving Repr, DecidableEq

/-- `scheduled` (lib.rs:150-388) as a function of the oracle answers,
following the source's control flow statement by statement:
watermark query with genesis fallback, etherscan fetch from `block + 1`,
early return on an empty fetch, zero-sender filtering (with the panicking
`first().unwrap()` log on an empty filtered list, lib.rs:220), token-hash
build and token insert (an `Err` returns, an unsuccessful result only
logs), price-feed fetch, the match-and-normalize loop, and the transfer
batch insert. -/
def runScheduled (env : RunEnv) : RunResult :=
  if !env.dbOk then ⟨.dbError, false, false, []⟩
  else
    let block := resumeBlock env.watermarkResult
    if !env.moonscanKeyOk then ⟨.moonscanKeyError, false, false, []⟩
    else if !env.clientOk then ⟨.clientError, false, false, []⟩
    else
      match env.etherscanResult (block + 1) with
      | .error _ => ⟨.fetchError, false, false, []⟩
      | .ok events =>
        if events.length = 0 then ⟨.noTransactions, false, false, []⟩
        else
          let filtered := filterTransfers events
          if filtered.isEmpty then ⟨.panicked, false, false, []⟩
          else
            let token_hash := tokenPairs events
            match env.tokenInsertResult with
            | .error _ => ⟨.tokenInsertError, true, false, []⟩
            | .ok _success =>
              if !env.twelveKeyOk then ⟨.twelveKeyError, true, false, []⟩
              else
                match get_twelve_data_model env.priceFeedRaw with
                | .error e => ⟨.priceError e, true, false, []⟩
                | .ok twelve_data =>
                  match processTransfers token_hash twelve_data filtered 0 with
                  | none => ⟨.panicked, true, false, []⟩
                  | some (txs, _) => ⟨.finished, true, true, txs⟩

/-- `slice::chunks(n)` (lib.rs:345, with `n = 250`): consecutive chunks of
at most `n` elements. -/
def chunksOf (n : Nat) : List α → List (List α)
  | [] => []
  | x :: xs => (x :: xs.take (n - 1)) :: chunksOf n (xs.drop (n - 1))
termination_by l => l.length
decreasing_by
  simp_wf
  omega

/-- The SQL prefix of every transfer chunk statement (lib.rs:343): a plain
`INSERT`, with no conflict clause. -/
def transfersBaseStatement : String :=
  "INSERT INTO TransfersForward (tx_hash, token_addr, token_count, usd, block_num, timestamp, to_chain) VALUES "

/-- The SQL prefix of the token statement (lib.rs:258-261): an
`INSERT OR IGNORE`. -/
def tokenBaseStatement : String :=
  "INSERT OR IGNORE INTO Token (contract_addr, token_name, token_sym, decimals) VALUES "

/-- SQLite semantics of one chunk's statement
`INSERT INTO TransfersForward … VALUES (…), (…), …` against the schema of
lib.rs:122-130, where `tx_hash` is the primary key and the `INSERT` carries
no `OR IGNORE`/`OR REPLACE` clause: if any row's `tx_hash` collides with a
persisted row or with another row of the same statement, the whole
statement fails with a constraint error and inserts nothing; otherwise all
rows are appended. Returns the store after the statement and the
`success()` flag of its result. -/
def runInsertChunk (store chunk : List TransferForward) :
    List TransferForward × Bool :=
  if ((store ++ chunk).map (fun t => t.tx_hash)).Nodup then
    (store ++ chunk, true)
  else (store, false)

/-- The persistence step (lib.rs:342-383): the transfers are cut into
chunks of 250, one statement per chunk, and the statements run in order; a
failed chunk is logged (its `success()` flag is `false`) but does not stop
the remaining chunks. Returns the final store and the per-chunk flags. -/
def persistBatch (store : List TransferForward)
    (transfers : List TransferForward) :
    List TransferForward × List Bool :=
  (chunksOf 250 transfers).foldl
    (fun acc chunk =>
      let r := runInsertChunk acc.1 chunk
      (r.1, acc.2 ++ [r.2]))
    (store, [])

/-- SQLite semantics of the token statement
`INSERT OR IGNORE INTO Token … VALUES …` (lib.rs:258-261), keyed on
`contract_addr`: a row whose key already exists is skipped silently, the
statement itself succeeds. -/
def runTokenUpsert (store : List Token) (rows : List Token) :
    List Token × Bool :=
  (rows.foldl
    (fun acc tok =>
      if (acc.map (fun t => t.contract_addr)).contains tok.contract_addr
      then acc else acc ++ [tok])
    store, true)

/-- The run reaches the price-feed fetch (lib.rs:279): the database handle,
both API keys and the client are available, the etherscan fetch succeeded
with a non-empty result, the zero-sender filter kept at least one event,
and the token insert did not return a database error. -/
def reachesPriceFetch (env : RunEnv) : Bool :=
  env.dbOk && env.moonscanKeyOk && env.clientOk &&
  (match env.etherscanResult (resumeBlock env.watermarkResult + 1) with
   | .error _ => false
   | .ok events =>
     !(decide (events.length = 0)) && !(filterTransfers events).isEmpty) &&
  (match env.tokenInsertResult with
   | .error _ => false
   | .ok _ => true) &&
  env.twelveKeyOk

/-- Concrete zero-sender USDT transfer event used by witness theorems. -/
def usdtEvent : ScanEvent :=
  { sender := 0
    hash := "0xaaa"
    contract_address := "0xc1"
    value := 1500000
    block_number := some 4200001
    time_stamp := "1700000000"
    token_name := "Tether USD"
    token_symbol := "USDT"
    token_decimal := "6" }

/-- Concrete event whose sender is not the zero address. -/
def nonZeroSenderEvent : ScanEvent :=
  { sender := 7
    hash := "0xbbb"
    contract_address := "0xc2"
    value := 5
    block_number := some 4200002
    time_stamp := "1700000100"
    token_name := "Foo"
    token_symbol := "FOO"
    token_decimal := "18" }

/-- Concrete two-sample price series. -/
def sampleSeries : List TimeSeries :=
  [⟨1700000000, 2⟩, ⟨1700000100, 4⟩]

/-- Concrete oracle environment on which the run goes through cleanly. -/
def baseEnv : RunEnv :=
  { dbOk := true
    watermarkResult := .ok (some 4200000)
    moonscanKeyOk := true
    clientOk := true
    etherscanResult := fun _ => .ok [usdtEvent]
    tokenInsertResult := .ok true
    twelveKeyOk := true
    priceFeedRaw := .ok sampleSeries }

/-- Concrete persisted transfer row used for the re-ingestion theorems. -/
def sampleTransfer : TransferForward :=
  { tx_hash := "0xaaa"
    token_addr := "0xc1"
    token_count := 1500000
    usd := 0
    block_num := 4200001
    timestamp := "1700000000"
    to_chain := 1000 }

/-- Concrete token row matching `usdtEvent`. -/
def sampleToken : Token :=
  { contract_addr := "0xc1"
    token_name := "Tether USD"
    token_sym := "USDT"
    decimals := 6 }

/-! ### Helper lemmas for the sweep -/

/-- Total indexing into the series, defaulting past the end. -/
def sampleAt (data : List TimeSeries) (j : Nat) : TimeSeries :=
  data.getD j ⟨0, 0⟩

/-- Distance from sample `j`'s timestamp to the target `t`. -/
def dAt (data : List TimeSeries) (t j : Nat) : Nat :=
  Nat.dist (sampleAt data j).timestamp t

/-- Strictly ascending timestamps. -/
def SortedSeries (data : List TimeSeries) : Prop :=
  data.Pairwise (fun a b => a.timestamp < b.timestamp)

lemma sweepIdx_of_len_le {data : List TimeSeries} {t i : Nat}
    (h : data.length ≤ i) : sweepIdx data t i = i := by
  rw [sweepIdx]
  simp [h]

lemma sweepIdx_last {data : List TimeSeries} {t i : Nat}
    (h : i + 1 = data.length) : sweepIdx data t i = i := by
  rw [sweepIdx]
  have h1 : ¬ data.length ≤ i := by omega
  simp only [h1, dite_false]
  have h2 : data.getD (i + 1) (data.get ⟨i, by omega⟩) = data.get ⟨i, by omega⟩ := by
    apply List.getD_eq_default
    omega
  rw [h2]
  simp

lemma sweepIdx_stop {data : List TimeSeries} {t i : Nat}
    (h : i + 1 < data.length)
    (hc : dAt data t i ≤ dAt data t (i + 1)) : sweepIdx data t i = i := by
  rw [sweepIdx]
  have h1 : ¬ data.length ≤ i := by omega
  simp only [h1, dite_false]
  rw [List.getD_eq_get _ _ h]
  have e1 : data.get ⟨i, by omega⟩ = sampleAt data i := by
    rw [sampleAt, List.getD_eq_get _ _ (by omega)]
  have e2 : data.get ⟨i + 1, h⟩ = sampleAt data (i + 1) := by
    rw [sampleAt, List.getD_eq_get _ _ h]
  rw [e1, e2]
  simp only [dAt] at hc
  simp [hc]

lemma sweepIdx_advance {data : List TimeSeries} {t i : Nat}
    (h : i + 1 < data.length)
    (hc : dAt data t (i + 1) < dAt data t i) :
    sweepIdx data t i = sweepIdx data t (i + 1) := by
  rw [sweepIdx]
  have h1 : ¬ data.length ≤ i := by omega
  simp only [h1, dite_false]
  rw [List.getD_eq_get _ _ h]
  have e1 : data.get ⟨i, by omega⟩ = sampleAt data i := by
    rw [sampleAt, List.getD_eq_get _ _ (by omega)]
  have e2 : data.get ⟨i + 1, h⟩ = sampleAt data (i + 1) := by
    rw [sampleAt, List.getD_eq_get _ _ h]
  rw [e1, e2]
  simp only [dAt] at hc
  have hn : ¬ Nat.dist (sampleAt data i).timestamp t ≤
      Nat.dist (sampleAt data (i + 1)).timestamp t := by omega
  simp [hn]

lemma sweepIdx_ge (data : List TimeSeries) (t : Nat) :
    ∀ i, i ≤ sweepIdx data t i := by
  have H : ∀ n i, data.length - i ≤ n → i ≤ sweepIdx data t i := by
    intro n
    induction n with
    | zero =>
      intro i hi
      rw [sweepIdx_of_len_le (by omega)]
    | succ n ih =>
      intro i hi
      by_cases h : data.length ≤ i
      · rw [sweepIdx_of_len_le h]
      · by_cases h1 : i + 1 = data.length
        · rw [sweepIdx_last h1]
        · by_cases hc : dAt data t i ≤ dAt data t (i + 1)
          · rw [sweepIdx_stop (by omega) hc]
          · rw [sweepIdx_advance (by omega) (by omega)]
            have := ih (i + 1) (by omega)
            omega
  intro i
  exact H data.length i (by omega)

lemma sweepIdx_lt_length (data : List TimeSeries) (t : Nat) :
    ∀ i, i < data.length → sweepIdx data t i < data.length := by
  have H : ∀ n i, data.length - i ≤ n → i < data.length →
      sweepIdx data t i < data.length := by
    intro n
    induction n with
    | zero => intro i hi h; omega
    | succ n ih =>
      intro i hi h
      by_cases h1 : i + 1 = data.length
      · rw [sweepIdx_last h1]; omega
      · by_cases hc : dAt data t i ≤ dAt data t (i + 1)
        · rw [sweepIdx_stop (by omega) hc]; omega
        · rw [sweepIdx_advance (by omega) (by omega)]
          exact ih (i + 1) (by omega) (by omega)
  intro i h
  exact H data.length i (by omega) h

lemma sweepIdx_descent (data : List TimeSeries) (t : Nat) :
    ∀ i j, i ≤ j → j < sweepIdx data t i →
      dAt data t (j + 1) < dAt data t j := by
  have H : ∀ n i, data.length - i ≤ n → ∀ j, i ≤ j → j < sweepIdx data t i →
      dAt data t (j + 1) < dAt data t j := by
    intro n
    induction n with
    | zero =>
      intro i hi j hij hjr
      rw [sweepIdx_of_len_le (by omega)] at hjr
      omega
    | succ n ih =>
      intro i hi j hij hjr
      by_cases h : data.length ≤ i
      · rw [sweepIdx_of_len_le h] at hjr; omega
      · by_cases h1 : i + 1 = data.length
        · rw [sweepIdx_last h1] at hjr; omega
        · by_cases hc : dAt data t i ≤ dAt data t (i + 1)
          · rw [sweepIdx_stop (by omega) hc] at hjr; omega
          · rw [sweepIdx_advance (by omega) (by omega)] at hjr
            rcases Nat.eq_or_lt_of_le hij with heq | hlt
            · subst heq; omega
            · exact ih (i + 1) (by omega) j (by omega) hjr
  intro i j hij hjr
  exact H data.length i (by omega) j hij hjr

lemma sweepIdx_stop_cond (data : List TimeSeries) (t : Nat) :
    ∀ i, i < data.length → sweepIdx data t i + 1 < data.length →
      dAt data t (sweepIdx data t i) ≤ dAt data t (sweepIdx data t i + 1) := by
  have H : ∀ n i, data.length - i ≤ n → i < data.length →
      sweepIdx data t i + 1 < data.length →
      dAt data t (sweepIdx data t i) ≤ dAt data t (sweepIdx data t i + 1) := by
    intro n
    induction n with
    | zero => intro i hi h; omega
    | succ n ih =>
      intro i hi h hr
      by_cases h1 : i + 1 = data.length
      · rw [sweepIdx_last h1] at hr ⊢
        omega
      · by_cases hc : dAt data t i ≤ dAt data t (i + 1)
        · rw [sweepIdx_stop (by omega) hc] at hr ⊢
          exact hc
        · rw [sweepIdx_advance (by omega) (by omega)] at hr ⊢
          exact ih (i + 1) (by omega) (by omega) hr
  intro i h hr
  exact H data.length i (by omega) h hr

lemma ts_mono {data : List TimeSeries} (hs : SortedSeries data) :
    ∀ i j, i < j → j < data.length →
      (sampleAt data i).timestamp < (sampleAt data j).timestamp := by
  intro i j hij hj
  have hi : i < data.length := by omega
  have := (List.pairwise_iff_get.mp hs) ⟨i, hi⟩ ⟨j, hj⟩ hij
  rwa [sampleAt, sampleAt, List.getD_eq_get _ _ hi, List.getD_eq_get _ _ hj]

lemma chain_lt (f : Nat → Nat) :
    ∀ r, (∀ k, k < r → f (k + 1) < f k) → ∀ j, j < r → f r < f j := by
  intro r
  induction r with
  | zero => intro _ j hj; omega
  | succ r ih =>
    intro h j hj
    rcases Nat.lt_or_ge j r with h1 | h1
    · have hr := ih (fun k hk => h k (by omega)) j h1
      have h2 := h r (by omega)
      omega
    · have : j = r := by omega
      subst this
      exact h j (by omega)

lemma sweep_tie_strict {data : List TimeSeries} {t : Nat} :
    ∀ j, j < sweepIdx data t 0 →
      dAt data t (sweepIdx data t 0) < dAt data t j := by
  intro j hj
  exact chain_lt (fun k => dAt data t k) (sweepIdx data t 0)
    (fun k hk => sweepIdx_descent data t 0 k (by omega) hk) j hj

lemma sweep_min {data : List TimeSeries} {t : Nat} (hs : SortedSeries data)
    (hne : data ≠ []) :
    ∀ j, j < data.length →
      dAt data t (sweepIdx data t 0) ≤ dAt data t j := by
  intro j hj
  have hlen : 0 < data.length := List.length_pos.mpr hne
  have hr : sweepIdx data t 0 < data.length := sweepIdx_lt_length data t 0 hlen
  set r := sweepIdx data t 0 with hrdef
  rcases Nat.lt_trichotomy j r with h1 | h1 | h1
  · exact le_of_lt (sweep_tie_strict j h1)
  · subst h1; exact le_refl _
  · have hr1 : r + 1 < data.length := by omega
    have hstop : dAt data t r ≤ dAt data t (r + 1) :=
      sweepIdx_stop_cond data t 0 hlen hr1
    have hmono : (sampleAt data r).timestamp < (sampleAt data (r + 1)).timestamp :=
      ts_mono hs r (r + 1) (by omega) hr1
    have ht : t < (sampleAt data (r + 1)).timestamp := by
      simp only [dAt, Nat.dist] at hstop
      omega
    have hj1 : (sampleAt data (r + 1)).timestamp ≤ (sampleAt data j).timestamp := by
      rcases Nat.eq_or_lt_of_le (Nat.succ_le_of_lt h1) with he | hl
      · rw [show j = r + 1 by omega]
      · exact le_of_lt (ts_mono hs (r + 1) j hl hj)
    simp only [dAt, Nat.dist] at hstop ⊢
    omega

lemma getElemQ_last {data : List TimeSeries} (hne : data ≠ []) :
    data[data.length - 1]? = data.getLast? := by
  rw [List.getLast?_eq_getLast_of_ne_nil hne]
  rw [List.getElem?_eq_getElem (by
    have := List.length_pos.mpr hne
    omega)]
  congr 1
  exact (List.getLast_eq_getElem data hne).symm

lemma sweepIdx_beyond {data : List TimeSeries} {t : Nat} (hs : SortedSeries data)
    (hlast : (sampleAt data (data.length - 1)).timestamp ≤ t) :
    ∀ i, i < data.length → sweepIdx data t i = data.length - 1 := by
  have H : ∀ n i, data.length - i ≤ n → i < data.length →
      sweepIdx data t i = data.length - 1 := by
    intro n
    induction n with
    | zero => intro i hi h; omega
    | succ n ih =>
      intro i hi h
      by_cases h1 : i + 1 = data.length
      · rw [sweepIdx_last h1]; omega
      · have h2 : i + 1 < data.length := by omega
        have hm : (sampleAt data i).timestamp < (sampleAt data (i + 1)).timestamp :=
          ts_mono hs i (i + 1) (by omega) h2
        have hle : (sampleAt data (i + 1)).timestamp ≤ t := by
          rcases Nat.eq_or_lt_of_le (Nat.succ_le_of_lt h2) with he | hl
          · have he1 : i + 1 = data.length - 1 := by omega
            rw [he1]; exact hlast
          · have := ts_mono hs (i + 1) (data.length - 1) (by omega) (by omega)
            omega
        have hadv : dAt data t (i + 1) < dAt data t i := by
          simp only [dAt, Nat.dist]
          omega
        rw [sweepIdx_advance h2 hadv]
        exact ih (i + 1) (by omega) (by omega)
  intro i h
  exact H data.length i (by omega) h

lemma sweepSample_beyond {data : List TimeSeries} {t : Nat}
    (hs : SortedSeries data) (hne : data ≠ [])
    (hlast : (sampleAt data (data.length - 1)).timestamp ≤ t) :
    ∀ i, sweepSample data t i = data.getLast? := by
  intro i
  have hlen : 0 < data.length := List.length_pos.mpr hne
  by_cases h : data.length ≤ i
  · rw [sweepSample, sweepIdx_of_len_le h]
    simp [h]
  · rw [sweepSample, sweepIdx_beyond hs hlast i (by omega)]
    have h2 : ¬ data.length ≤ data.length - 1 := by omega
    simp only [h2, if_false]
    exact getElemQ_last hne

lemma matchStep_idx_ge {th : List (String × Token)} {data : List TimeSeries}
    {idx : Nat} {tx tx' : TransferForward} {idx' : Nat}
    (h : matchStep th data idx tx = some (tx', idx')) : idx ≤ idx' := by
  rw [matchStep] at h
  split at h
  · rcases Option.map_eq_some'.mp h with ⟨u, _, he⟩
    cases he
    exact le_refl _
  · split at h
    · cases h
      exact le_refl _
    · split at h
      · exact absurd h (by simp)
      · rcases Option.map_eq_some'.mp h with ⟨u, _, he⟩
        cases he
        exact sweepIdx_ge data _ idx

lemma processTransfers_idx_ge {th : List (String × Token)}
    {data : List TimeSeries} :
    ∀ (txs : List TransferForward) (idx : Nat) (out : List TransferForward)
      (i' : Nat), processTransfers th data txs idx = some (out, i') →
      idx ≤ i' := by
  intro txs
  induction txs with
  | nil =>
    intro idx out i' h
    rw [processTransfers] at h
    cases h
    exact le_refl _
  | cons tx rest ih =>
    intro idx out i' h
    rw [processTransfers] at h
    split at h
    · exact absurd h (by simp)
    · rename_i a b hstep
      rcases Option.map_eq_some'.mp h with ⟨q, hq, he⟩
      cases he
      have h1 : idx ≤ b := matchStep_idx_ge hstep
      have h2 : b ≤ q.2 := ih b q.1 q.2 (by rw [hq])
      omega

/-! ### Helper lemmas for the USD normalizer -/

lemma pow10_u128_of_le {e : Nat} (h : e ≤ 38) : pow10_u128 e = some (10 ^ e) := by
  rw [pow10_u128, if_pos]
  calc 10 ^ e ≤ 10 ^ 38 := Nat.pow_le_pow_right (by norm_num) h
    _ ≤ U128_MAX := by norm_num [U128_MAX]

lemma pow10_u128_of_ge {e : Nat} (h : 39 ≤ e) : pow10_u128 e = none := by
  rw [pow10_u128, if_neg]
  intro hle
  have h1 : (10 : Nat) ^ 39 ≤ 10 ^ e := Nat.pow_le_pow_right (by norm_num) h
  have h2 : U128_MAX < 10 ^ 39 := by norm_num [U128_MAX]
  omega

lemma calculate_usd_of_le {rate : ℚ} {c d : Nat} (hd : d ≤ 44) :
    calculate_usd rate c d =
      some (if 6 ≤ d then rate * ((c / 10 ^ (d - 6) : Nat) : ℚ) / 10 ^ 6
            else rate * ((c / 10 ^ d : Nat) : ℚ)) := by
  rw [calculate_usd]
  by_cases h6 : 6 ≤ d
  · rw [if_pos h6, if_pos h6, pow10_u128_of_le (by omega)]
    rfl
  · rw [if_neg h6, if_neg h6, pow10_u128_of_le (by omega)]
    rfl

lemma calculate_usd_of_ge {rate : ℚ} {c d : Nat} (hd : 45 ≤ d) :
    calculate_usd rate c d = none := by
  rw [calculate_usd, if_pos (by omega), pow10_u128_of_ge (by omega)]
  rfl

/-! ### Claim theorems -/

/-- C5: for every rate, raw amount and decimal precision in the range where
the divisor computation does not overflow (`decimals ≤ 44`, see the
overflow theorem), `calculate_usd` with `decimals ≥ 6` equals the rate
times the truncating integer division of the raw amount by
`10^(decimals-6)`, converted to float and divided by `10^6`; with
`decimals < 6` it equals the rate times the truncating integer division by
`10^decimals`; in particular `ToUSD(2, 1500000, 6) = 3` and
`ToUSD(1, 500, 2) = 5`, and the 6th-decimal boundary truncates rather than
rounds (`ToUSD(1, 1999999, 7) = 0.199999`, not `0.2`). -/
theorem claim_usd_normalization (rate : ℚ) (c d : Nat) (hd : d ≤ 44) :
    (6 ≤ d → calculate_usd rate c d =
      some (rate * ((c / 10 ^ (d - 6) : Nat) : ℚ) / 10 ^ 6))
    ∧ (d < 6 → calculate_usd rate c d =
      some (rate * ((c / 10 ^ d : Nat) : ℚ)))
    ∧ calculate_usd 2 1500000 6 = some 3
    ∧ calculate_usd 1 500 2 = some 5
    ∧ calculate_usd 1 1999999 7 = some ((199999 : ℚ) / 10 ^ 6) := by
  refine ⟨?_, ?_, ?_, ?_, ?_⟩
  · intro h6
    rw [calculate_usd_of_le hd, if_pos h6]
  · intro h6
    rw [calculate_usd_of_le hd, if_neg (by omega)]
  · rw [calculate_usd_of_le (by norm_num)]
    norm_num
  · rw [calculate_usd_of_le (by norm_num)]
    norm_num
  · rw [calculate_usd_of_le (by norm_num)]
    norm_num

/-- C5 witness: the theorem applied at `rate = 2`, `rawAmount = 1500000`,
`decimals = 6`. -/
theorem claim_usd_normalization_witness :
    calculate_usd 2 1500000 6 = some 3 :=
  (claim_usd_normalization 2 1500000 6 (by norm_num)).2.2.1

/-- C10: `calculate_usd` is not total over its declared inputs: for every
`decimals ≥ 45` the computation `10_u128.pow(decimals - 6)` overflows
`u128` (so the call panics under overflow-checked semantics, modelled as
`none`), for every `decimals ≤ 44` it returns a value, and a decimals value
of 45 is reachable from the untrusted string field `token_decimal` of a
fetched event (parsed with `parse::<u32>()`). -/
theorem claim_usd_overflow_panic :
    (∀ (rate : ℚ) (c d : Nat), 45 ≤ d → calculate_usd rate c d = none)
    ∧ (∀ (rate : ℚ) (c d : Nat), d ≤ 44 →
        (calculate_usd rate c d).isSome = true)
    ∧ (∀ e : ScanEvent, e.sender = 0 → e.token_decimal = "45" →
        tokenLookup (tokenPairs [e]) e.contract_address =
          some { contract_addr := e.contract_address
                 token_name := e.token_name
                 token_sym := e.token_symbol
                 decimals := 45 }) := by
  refine ⟨?_, ?_, ?_⟩
  · intro rate c d hd
    exact calculate_usd_of_ge hd
  · intro rate c d hd
    rw [calculate_usd_of_le hd]
    rfl
  · intro e hs hd
    simp [tokenPairs, tokenLookup, hs, hd, parseU32, parseBounded, parseDigits]
    decide

/-- C10 witness: the overflow at `decimals = 45`, the totality bound at
`decimals = 44`, and reachability for a concrete event. -/
theorem claim_usd_overflow_panic_witness :
    calculate_usd 1 7 45 = none :=
  claim_usd_overflow_panic.1 1 7 45 (by norm_num)

/-- C2: for a non-empty persisted set the resume block is `MAX(block_num)`
over the set (attained by some record and an upper bound for all of them)
and the fetch window starts at that watermark plus one; an empty store
(NULL aggregate) or a failed watermark query resumes from the hardcoded
genesis constant. -/
theorem claim_watermark_resume (store : List TransferForward)
    (hne : store ≠ []) :
    (∃ m, maxBlockQuery store = some m
      ∧ resumeBlock (.ok (maxBlockQuery store)) = m
      ∧ (∃ r ∈ store, r.block_num = m)
      ∧ (∀ r ∈ store, r.block_num ≤ m)
      ∧ fetchFromBlock (.ok (maxBlockQuery store)) = m + 1)
    ∧ maxBlockQuery [] = none
    ∧ resumeBlock (.ok none) = GENESIS_BLOCK
    ∧ (∀ e, resumeBlock (.error e) = GENESIS_BLOCK)
    ∧ GENESIS_BLOCK = 4164120 := by
  refine ⟨?_, rfl, rfl, fun e => rfl, rfl⟩
  have hmapne : store.map (fun r => r.block_num) ≠ [] := by
    simpa using hne
  rcases List.maximum_ne_bot_of_ne_nil hmapne |> Option.ne_none_iff_exists'.mp
    with ⟨m, hm⟩
  refine ⟨m, hm, ?_, ?_, ?_, ?_⟩
  · simp only [maxBlockQuery] at hm ⊢
    rw [hm]
    rfl
  · have := List.maximum_mem (l := store.map (fun r => r.block_num)) hm
    rcases List.mem_map.mp this with ⟨r, hr, hrm⟩
    exact ⟨r, hr, hrm⟩
  · intro r hr
    exact List.le_maximum_of_mem (List.mem_map_of_mem _ hr) hm
  · rw [fetchFromBlock, resumeBlock.eq_def]
    simp only [maxBlockQuery]
    rw [hm]

/-- C2 witness: a two-record store resumes at its maximum block and fetches
from the next block. -/
theorem claim_watermark_resume_witness :
    resumeBlock (.ok (maxBlockQuery
      [{ tx_hash := "0xa", token_addr := "0xc", token_count := 1, usd := 0,
         block_num := 4200005, timestamp := "1", to_chain := 1000 },
       { tx_hash := "0xb", token_addr := "0xc", token_count := 2, usd := 0,
         block_num := 4200009, timestamp := "2", to_chain := 1000 }])) = 4200009 := by
  rcases claim_watermark_resume
      [{ tx_hash := "0xa", token_addr := "0xc", token_count := 1, usd := 0,
         block_num := 4200005, timestamp := "1", to_chain := 1000 },
       { tx_hash := "0xb", token_addr := "0xc", token_count := 2, usd := 0,
         block_num := 4200009, timestamp := "2", to_chain := 1000 }]
      (by simp) with ⟨⟨m, hm, hres, _, _, _⟩, -⟩
  have hc : maxBlockQuery
      [{ tx_hash := "0xa", token_addr := "0xc", token_count := 1, usd := 0,
         block_num := 4200005, timestamp := "1", to_chain := 1000 },
       { tx_hash := "0xb", token_addr := "0xc", token_count := 2, usd := 0,
         block_num := 4200009, timestamp := "2", to_chain := 1000 }] = some 4200009 := by
    decide
  rw [hc] at hm
  cases hm
  exact hres

/-- C3: on a sorted (strictly ascending) price series the sweep started at
index 0 stops inside the series at a sample whose timestamp minimizes the
absolute difference to the target; an exact-equidistance tie is broken
toward the earlier sample (the stop index is the least minimizer, strictly
closer than every earlier sample); a target at or beyond the last sample's
timestamp yields the last sample from any starting index; and the index
advances monotonically, both per sweep and across a whole batch of
transfers. -/
theorem claim_price_match_nearest (data : List TimeSeries) (t : Nat)
    (hne : data ≠ []) (hs : SortedSeries data) :
    sweepIdx data t 0 < data.length
    ∧ (∀ j, j < data.length →
        dAt data t (sweepIdx data t 0) ≤ dAt data t j)
    ∧ (∀ j, j < sweepIdx data t 0 →
        dAt data t (sweepIdx data t 0) < dAt data t j)
    ∧ sweepSample data t 0 = data[sweepIdx data t 0]?
    ∧ ((sampleAt data (data.length - 1)).timestamp ≤ t →
        ∀ i, sweepSample data t i = data.getLast?)
    ∧ (∀ i, i ≤ sweepIdx data t i)
    ∧ (∀ (th : List (String × Token)) (txs : List TransferForward)
        (idx : Nat) (out : List TransferForward) (idx' : Nat),
        processTransfers th data txs idx = some (out, idx') → idx ≤ idx') := by
  have hlen : 0 < data.length := List.length_pos.mpr hne
  have hlt : sweepIdx data t 0 < data.length := sweepIdx_lt_length data t 0 hlen
  refine ⟨hlt, sweep_min hs hne, sweep_tie_strict, ?_, ?_, sweepIdx_ge data t,
    fun th txs idx out idx' h => processTransfers_idx_ge txs idx out idx' h⟩
  · rw [sweepSample]
    simp only [Nat.not_le.mpr hlt, if_false]
  · intro hlast i
    exact sweepSample_beyond hs hne hlast i

/-- C3 witness: the sweep on the series `[(10, 1), (20, 2), (30, 3)]` with
target 14 stops inside the series (at the nearest sample, index 0). -/
theorem claim_price_match_nearest_witness :
    sweepIdx [⟨10, 1⟩, ⟨20, 2⟩, ⟨30, 3⟩] 14 0 <
      ([⟨10, 1⟩, ⟨20, 2⟩, ⟨30, 3⟩] : List TimeSeries).length :=
  (claim_price_match_nearest [⟨10, 1⟩, ⟨20, 2⟩, ⟨30, 3⟩] 14 (by simp)
    (by rw [SortedSeries]; decide)).1

/-- C4: an empty price series is reported as the `NoPriceDataError`
condition; on any run that reaches the price-feed fetch it is fatal — the
run ends at that error with the transfer batch never attempted (the only
prior write being the token upsert) and no transfers persisted — and a
series with exactly one sample returns that sample for every target
timestamp and every starting index. -/
theorem claim_empty_price_series_error :
    get_twelve_data_model (.ok []) = .error .noPriceData
    ∧ (∀ env : RunEnv, reachesPriceFetch env = true →
        env.priceFeedRaw = .ok [] →
        runScheduled env = ⟨.priceError .noPriceData, true, false, []⟩)
    ∧ (∀ (s : TimeSeries) (t i : Nat), sweepSample [s] t i = some s) := by
  refine ⟨rfl, ?_, ?_⟩
  · intro env hr hp
    rw [reachesPriceFetch] at hr
    simp only [Bool.and_eq_true] at hr
    obtain ⟨⟨⟨⟨⟨hdb, hmk⟩, hcl⟩, hev⟩, htok⟩, htw⟩ := hr
    rw [runScheduled]
    cases hE : env.etherscanResult (resumeBlock env.watermarkResult + 1) with
    | error u => rw [hE] at hev; simp at hev
    | ok events =>
      rw [hE] at hev
      simp only [Bool.and_eq_true, Bool.not_eq_true',
        decide_eq_false_iff_not] at hev
      obtain ⟨hlen, hfil⟩ := hev
      cases hT : env.tokenInsertResult with
      | error u => rw [hT] at htok; simp at htok
      | ok b =>
        simp [hdb, hmk, hcl, hE, hlen, hfil, hT, htw, hp, get_twelve_data_model]
  · intro s t i
    by_cases h : 1 ≤ i
    · rw [sweepSample, sweepIdx_of_len_le (by simpa using h)]
      simp
      omega
    · have h0 : i = 0 := by omega
      subst h0
      rw [sweepSample, sweepIdx_last (by simp)]
      simp

/-- C4 witness: the concrete environment whose price feed answers with an
empty series ends at the `NoPriceDataError` exit with no transfer insert. -/
theorem claim_empty_price_series_error_witness :
    runScheduled { baseEnv with priceFeedRaw := .ok [] } =
      ⟨.priceError .noPriceData, true, false, []⟩ :=
  claim_empty_price_series_error.2.1 { baseEnv with priceFeedRaw := .ok [] }
    (by decide) rfl

/-- C6: a transfer whose looked-up token symbol contains `"USDT"`,
`"USDC"` or `"DAI"` gets its USD value from `calculate_usd` at the fixed
rate 1.0 applied to the raw amount, the sweep index is left unchanged, and
the step's result is the same for every price series — the price matcher is
bypassed. (Stated on the non-overflowing decimals range, see the overflow
theorem.) -/
theorem claim_stablecoin_shortcut (th : List (String × Token))
    (data data' : List TimeSeries) (idx : Nat) (tx : TransferForward)
    (hsym : is_usd_stablecoin th tx.token_addr = true)
    (hdec : decimalsOf th tx.token_addr ≤ 44) :
    (∃ u, calculate_usd 1 tx.token_count (decimalsOf th tx.token_addr) = some u
      ∧ matchStep th data idx tx = some ({ tx with usd := u }, idx))
    ∧ matchStep th data idx tx = matchStep th data' idx tx := by
  have hu := @calculate_usd_of_le 1 tx.token_count
    (decimalsOf th tx.token_addr) hdec
  refine ⟨⟨_, hu, ?_⟩, ?_⟩
  · rw [matchStep, if_pos hsym, hu]
    rfl
  · rw [matchStep, if_pos hsym, matchStep, if_pos hsym]

/-- C6 witness: the concrete USDT transfer is normalized at rate 1.0
identically against the sample series and against an empty series. -/
theorem claim_stablecoin_shortcut_witness :
    matchStep (tokenPairs [usdtEvent]) sampleSeries 0
        (toTransferForward usdtEvent)
      = matchStep (tokenPairs [usdtEvent]) [] 0
        (toTransferForward usdtEvent) :=
  (claim_stablecoin_shortcut (tokenPairs [usdtEvent]) sampleSeries [] 0
    (toTransferForward usdtEvent) (by decide) (by decide)).2

/-! ### Helper lemmas for the filter claim -/

lemma matchStep_preserves_hash {th : List (String × Token)}
    {data : List TimeSeries} {idx : Nat} {tx tx' : TransferForward} {idx' : Nat}
    (h : matchStep th data idx tx = some (tx', idx')) :
    tx'.tx_hash = tx.tx_hash := by
  rw [matchStep] at h
  split at h
  · rcases Option.map_eq_some'.mp h with ⟨u, _, he⟩
    cases he
    rfl
  · split at h
    · cases h
      rfl
    · split at h
      · exact absurd h (by simp)
      · rcases Option.map_eq_some'.mp h with ⟨u, _, he⟩
        cases he
        rfl

lemma processTransfers_mem {th : List (String × Token)}
    {data : List TimeSeries} :
    ∀ (txs : List TransferForward) (idx : Nat) (out : List TransferForward)
      (i' : Nat), processTransfers th data txs idx = some (out, i') →
      ∀ tf ∈ out, ∃ tx ∈ txs, tf.tx_hash = tx.tx_hash := by
  intro txs
  induction txs with
  | nil =>
    intro idx out i' h tf htf
    rw [processTransfers] at h
    cases h
    simp at htf
  | cons tx rest ih =>
    intro idx out i' h tf htf
    rw [processTransfers] at h
    split at h
    · exact absurd h (by simp)
    · rename_i a b hstep
      rcases Option.map_eq_some'.mp h with ⟨q, hq, he⟩
      cases he
      rcases List.mem_cons.mp htf with he2 | hmem
      · subst he2
        exact ⟨tx, List.mem_cons_self _ _, matchStep_preserves_hash hstep⟩
      · rcases ih b q.1 q.2 (by rw [hq]) tf hmem with ⟨tx2, h2, h3⟩
        exact ⟨tx2, List.mem_cons_of_mem _ h2, h3⟩

lemma runScheduled_inserted_spec (env : RunEnv) :
    (runScheduled env).insertedTransfers = [] ∨
    (∃ events txs i' data,
      env.etherscanResult (resumeBlock env.watermarkResult + 1) = .ok events ∧
      get_twelve_data_model env.priceFeedRaw = .ok data ∧
      processTransfers (tokenPairs events) data (filterTransfers events) 0
        = some (txs, i') ∧
      (runScheduled env).insertedTransfers = txs) := by
  rw [runScheduled]
  dsimp only
  repeat' split
  all_goals
    first
      | (left; rfl)
      | (right
         exact ⟨_, _, _, _, by assumption, by assumption, by assumption, rfl⟩)

/-- C7: only events whose sender is the zero address survive the filter —
every filtered transfer originates from a zero-sender event — and at the
pipeline level every transfer contained in the batch-insert statements of
any run carries the transaction hash of some zero-sender fetched event, so
an event with a non-zero sender address is never persisted. -/
theorem claim_zero_sender_filter :
    (∀ (events : List ScanEvent) (tf : TransferForward),
      tf ∈ filterTransfers events →
      ∃ e ∈ events, e.sender = 0 ∧ tf = toTransferForward e)
    ∧ (∀ (env : RunEnv) (tf : TransferForward),
        tf ∈ (runScheduled env).insertedTransfers →
        ∃ events,
          env.etherscanResult (resumeBlock env.watermarkResult + 1)
            = .ok events
          ∧ ∃ e ∈ events, e.sender = 0 ∧ tf.tx_hash = e.hash) := by
  have hfil : ∀ (events : List ScanEvent) (tf : TransferForward),
      tf ∈ filterTransfers events →
      ∃ e ∈ events, e.sender = 0 ∧ tf = toTransferForward e := by
    intro events tf htf
    rw [filterTransfers] at htf
    rcases List.mem_filterMap.mp htf with ⟨e, he, hee⟩
    by_cases hz : e.sender = 0
    · rw [if_pos hz] at hee
      cases hee
      exact ⟨e, he, hz, rfl⟩
    · rw [if_neg hz] at hee
      cases hee
  refine ⟨hfil, ?_⟩
  intro env tf htf
  rcases runScheduled_inserted_spec env with hnil | ⟨events, txs, i', data,
    hev, hdata, hproc, heq⟩
  · rw [hnil] at htf
    simp at htf
  · rw [heq] at htf
    refine ⟨events, hev, ?_⟩
    rcases processTransfers_mem _ _ _ _ hproc tf htf with ⟨tx, hmem, hhash⟩
    rcases hfil events tx hmem with ⟨e, he, hz, hte⟩
    refine ⟨e, he, hz, ?_⟩
    rw [hhash, hte]
    rfl

/-- C7 witness: in a fetch containing one zero-sender and one
non-zero-sender event, the retained transfer originates from a zero-sender
event. -/
theorem claim_zero_sender_filter_witness :
    ∃ e ∈ [usdtEvent, nonZeroSenderEvent], e.sender = 0
      ∧ toTransferForward usdtEvent = toTransferForward e :=
  claim_zero_sender_filter.1 [usdtEvent, nonZeroSenderEvent]
    (toTransferForward usdtEvent) (by decide)

lemma chunksOf_nil {α : Type} {n : Nat} : chunksOf n ([] : List α) = [] := by
  rw [chunksOf]

lemma chunksOf_cons {α : Type} {n : Nat} {x : α} {xs : List α} :
    chunksOf n (x :: xs)
      = (x :: xs.take (n - 1)) :: chunksOf n (xs.drop (n - 1)) := by
  rw [chunksOf]

/-- C1 (code divergence): the transfer chunk statement is a plain `INSERT`
— the `OR IGNORE` conflict clause is used only for the token table — so
re-running the persistence step over an already-persisted transaction hash
makes the whole chunk statement fail with a primary-key constraint error:
the persisted set is left unchanged (no duplicates), but the re-ingestion
is a per-chunk error, not a silent no-op. The token upsert, by contrast,
succeeds on a key conflict. -/
theorem claim_reingest_hash_errors :
    persistBatch [] [sampleTransfer] = ([sampleTransfer], [true])
    ∧ persistBatch [sampleTransfer] [sampleTransfer]
      = ([sampleTransfer], [false])
    ∧ runInsertChunk [sampleTransfer] [sampleTransfer]
      = ([sampleTransfer], false)
    ∧ List.isPrefixOf "INSERT OR IGNORE".toList
        transfersBaseStatement.toList = false
    ∧ List.isPrefixOf "INSERT INTO".toList
        transfersBaseStatement.toList = true
    ∧ List.isPrefixOf "INSERT OR IGNORE".toList
        tokenBaseStatement.toList = true
    ∧ runTokenUpsert [sampleToken] [sampleToken] = ([sampleToken], true) := by
  refine ⟨?_, ?_, ?_, ?_, ?_, ?_, ?_⟩
  · simp only [persistBatch, chunksOf_cons, List.drop_nil, chunksOf_nil]
    decide
  · simp only [persistBatch, chunksOf_cons, List.drop_nil, chunksOf_nil]
    decide
  all_goals decide

/-- C8 (code divergence): a raw fetch containing only non-zero-sender
events leaves the filtered list empty, and the run then panics at the
`filtered_etherscan_data.first().unwrap()` log call (lib.rs:220) instead of
terminating cleanly — no store write is attempted, but the exit is a panic,
not the clean no-transactions return that an empty raw fetch produces. -/
theorem claim_empty_filtered_panics :
    runScheduled
        { baseEnv with etherscanResult := fun _ => .ok [nonZeroSenderEvent] }
      = ⟨.panicked, false, false, []⟩
    ∧ ExitKind.panicked ≠ ExitKind.noTransactions
    ∧ runScheduled { baseEnv with etherscanResult := fun _ => .ok [] }
      = ⟨.noTransactions, false, false, []⟩ := by
  refine ⟨rfl, by decide, rfl⟩

/-- C9 counterexample: when the token insert fails as a database error
(`Err(e)`, lib.rs:272-275), the run aborts — the price feed is never
queried and the transfer batch insert is never attempted — refuting the
claim that a token-persist failure never aborts the run. -/
theorem claim_token_insert_error_aborts :
    runScheduled { baseEnv with tokenInsertResult := .error () }
      = ⟨.tokenInsertError, true, false, []⟩ := rfl

/-- C9 (amended): a token-insert failure reported as an unsuccessful
statement result is only logged — the run proceeds exactly as on success,
through price fetch, normalization and the transfer batch insert — whereas
a token-insert failure raised as a database error aborts the run with no
transfer insert attempted. -/
theorem claim_token_insert_failure_logged :
    (∀ env : RunEnv,
      runScheduled { env with tokenInsertResult := .ok false }
        = runScheduled { env with tokenInsertResult := .ok true })
    ∧ (∀ env : RunEnv, env.tokenInsertResult = .error () →
        (runScheduled env).transferBatchAttempted = false
        ∧ (runScheduled env).insertedTransfers = []) := by
  refine ⟨fun env => rfl, ?_⟩
  intro env h
  constructor
  all_goals
    rw [runScheduled]
    dsimp only
    repeat' split
    all_goals first | rfl | simp_all

/-- C9 witness: the amended theorem applied at the concrete environment
whose token insert raises a database error. -/
theorem claim_token_insert_failure_logged_witness :
    (runScheduled { baseEnv with tokenInsertResult := .error () }
      ).transferBatchAttempted = false :=
  (claim_token_insert_failure_logged.2
    { baseEnv with tokenInsertResult := .error () } rfl).1

end MrlMono
